import Mathlib

/-!
Verification of the sebuf protocol-buffer compiler plugins (Rust crates
sebuf-core, protoc-gen-rust-http, protoc-gen-rust-openapiv3 and
protoc-gen-rust-oneof-helper) against their specification.

The Rust code is shallowly embedded.  Protobuf descriptors are records
mirroring the prost_types structures used by the code.  Calls into external
libraries whose behaviour the code merely threads through (prost decoding,
syn parsing, prettyplease printing) are parameters of the embedded
operations.  The identifier case conversions performed via the heck crate
(ToSnakeCase, ToUpperCamelCase) are embedded from heck's transform
algorithm, restricted to ASCII character classes.
-/

/- ===================================================================
   Character classes and case mapping (ASCII fragment of the Rust
   char::is_lowercase, is_uppercase, is_alphanumeric, case mapping).
   =================================================================== -/

/-- ASCII lowercase test, the ASCII fragment of Rust char::is_lowercase. -/
def isLowerC (c : Char) : Bool := 97 ≤ c.toNat && c.toNat ≤ 122

/-- ASCII uppercase test, the ASCII fragment of Rust char::is_uppercase. -/
def isUpperC (c : Char) : Bool := 65 ≤ c.toNat && c.toNat ≤ 90

/-- ASCII digit test. -/
def isDigitC (c : Char) : Bool := 48 ≤ c.toNat && c.toNat ≤ 57

/-- ASCII alphanumeric test, the ASCII fragment of Rust
char::is_alphanumeric. -/
def isAlnumC (c : Char) : Bool := isLowerC c || isUpperC c || isDigitC c

/-- ASCII lowercasing of one character. -/
def toLowerC (c : Char) : Char :=
  if isUpperC c then Char.ofNat (c.toNat + 32) else c

/-- ASCII uppercasing of one character. -/
def toUpperC (c : Char) : Char :=
  if isLowerC c then Char.ofNat (c.toNat - 32) else c

theorem toNat_ofNat_valid (n : Nat) (h : n < 55296) : (Char.ofNat n).toNat = n := by
  simp [Char.ofNat, Nat.isValidChar, h, Char.toNat, Char.ofNatAux, UInt32.toNat,
    BitVec.toNat_ofNatLt]

theorem isUpperC_toLowerC (c : Char) : isUpperC (toLowerC c) = false := by
  unfold toLowerC
  by_cases h : isUpperC c = true
  · have hb : 65 ≤ c.toNat ∧ c.toNat ≤ 90 := by
      simpa [isUpperC] using h
    have hv : c.toNat + 32 < 55296 := by omega
    rw [if_pos h]
    simp only [isUpperC, toNat_ofNat_valid _ hv]
    simp only [Bool.and_eq_false_iff, decide_eq_false_iff_not]
    omega
  · rw [if_neg h]
    simpa using h

theorem toLowerC_eq_self {c : Char} (h : isUpperC c = false) : toLowerC c = c := by
  unfold toLowerC
  rw [if_neg (by simp [h])]

theorem isAlnumC_toLowerC {c : Char} (h : isAlnumC c = true) :
    isAlnumC (toLowerC c) = true := by
  unfold toLowerC
  by_cases hu : isUpperC c = true
  · have hb : 65 ≤ c.toNat ∧ c.toNat ≤ 90 := by
      simpa [isUpperC] using hu
    have hv : c.toNat + 32 < 55296 := by omega
    rw [if_pos hu]
    simp only [isAlnumC, isLowerC, isUpperC, isDigitC, toNat_ofNat_valid _ hv]
    simp only [Bool.or_eq_true, Bool.and_eq_true, decide_eq_true_eq]
    omega
  · rw [if_neg hu]
    exact h

theorem isAlnumC_underscore : isAlnumC '_' = false := by decide

theorem toLowerC_ne_underscore {c : Char} (h : isAlnumC c = true) :
    toLowerC c ≠ '_' := by
  intro he
  have := isAlnumC_toLowerC h
  rw [he] at this
  simp [isAlnumC_underscore] at this

/- ===================================================================
   heck transform algorithm (word splitting and reassembly), used by the
   code through heck's ToSnakeCase and ToUpperCamelCase.
   =================================================================== -/

/-- Rust str::split over a character predicate, keeping empty segments.
heck splits the input on every non-alphanumeric character; the type-name
resolvers split a dotted path on a dot. -/
def splitSep (isSep : Char → Bool) : List Char → List (List Char)
  | [] => [[]]
  | c :: rest =>
    if isSep c then [] :: splitSep isSep rest
    else
      match splitSep isSep rest with
      | w :: ws => (c :: w) :: ws
      | [] => [[c]]

/-- Word-scan state of heck's transform loop. -/
inductive WordMode where
  | boundary
  | lowercase
  | uppercase
deriving DecidableEq, Repr

/-- heck's next word mode: the mode including the current character,
assuming the current character does not result in a word boundary. -/
def nextModeOf (mode : WordMode) (c : Char) : WordMode :=
  if isLowerC c then WordMode.lowercase
  else if isUpperC c then WordMode.uppercase
  else mode

/-- One segment of heck's transform loop: scans the segment character by
character with one character of lookahead, emitting a sub-word at every
case boundary, exactly as heck's transform does (acc holds the characters
of the current sub-word, c the current character). -/
def caseSplitAux (mode : WordMode) (acc : List Char) (c : Char) :
    List Char → List (List Char)
  | [] => [acc ++ [c]]
  | next :: rest =>
    if next == '_' || (nextModeOf mode c == WordMode.lowercase && isUpperC next) then
      (acc ++ [c]) :: caseSplitAux WordMode.boundary [] next rest
    else if mode == WordMode.uppercase && isUpperC c && isLowerC next then
      acc :: caseSplitAux WordMode.boundary [c] next rest
    else
      caseSplitAux (nextModeOf mode c) (acc ++ [c]) next rest

/-- Case-boundary split of one segment (the empty segment emits nothing,
matching the loop body never running). -/
def caseSplit : List Char → List (List Char)
  | [] => []
  | c :: rest => caseSplitAux WordMode.boundary [] c rest

/-- All sub-words heck's transform emits for an input, in order. -/
def heckWords (s : List Char) : List (List Char) :=
  ((splitSep (fun c => !isAlnumC c) s).map caseSplit).flatten

/-- Reassembly with a separator before every word except the first, the
first_word/boundary protocol of heck's transform. -/
def joinWords (sep : List Char) : List (List Char) → List Char
  | [] => []
  | [w] => w
  | w :: ws => w ++ sep ++ joinWords sep ws

/-- heck ToUpperCamelCase of one word: uppercase the first character,
lowercase the rest. -/
def capitalizeWord : List Char → List Char
  | [] => []
  | c :: rest => toUpperC c :: rest.map toLowerC

/-- heck ToSnakeCase on character lists: each sub-word lowercased, joined
by underscores. -/
def toSnakeCaseL (s : List Char) : List Char :=
  joinWords ['_'] ((heckWords s).map (List.map toLowerC))

/-- heck ToUpperCamelCase on character lists: each sub-word capitalized,
concatenated. -/
def toUpperCamelCaseL (s : List Char) : List Char :=
  ((heckWords s).map capitalizeWord).flatten

/-- heck ToSnakeCase (Rust to_snake_case). -/
def toSnakeCaseS (s : String) : String := ⟨toSnakeCaseL s.data⟩

/-- heck ToUpperCamelCase (Rust to_upper_camel_case). -/
def toUpperCamelCaseS (s : String) : String := ⟨toUpperCamelCaseL s.data⟩

theorem heck_snake_listUsers : toSnakeCaseS "ListUsers" = "list_users" := by decide

theorem heck_snake_xmlHttpRequest :
    toSnakeCaseS "XMLHttpRequest" = "xml_http_request" := by decide

theorem heck_camel_userInfo : toUpperCamelCaseS "user_info" = "UserInfo" := by decide

theorem heck_camel_underscore_ab : toUpperCamelCaseS "a_b" = "AB" := by decide

theorem heck_camel_acronym_ab : toUpperCamelCaseS "AB" = "Ab" := by decide

theorem heck_snake_loginRequest :
    toSnakeCaseS "LoginRequest" = "login_request" := by decide

/- ===================================================================
   Properties of the heck transform needed for the case-projection
   idempotence claim.
   =================================================================== -/

theorem splitSep_ne_nil (p : Char → Bool) (l : List Char) : splitSep p l ≠ [] := by
  induction l with
  | nil => simp [splitSep]
  | cons c rest ih =>
    by_cases h : p c = true
    · simp [splitSep, h]
    · simp only [splitSep, h, Bool.false_eq_true, if_false]
      cases hs : splitSep p rest <;> simp

theorem mem_splitSep_sep_false (p : Char → Bool) :
    ∀ l : List Char, ∀ w ∈ splitSep p l, ∀ c ∈ w, p c = false := by
  intro l
  induction l with
  | nil =>
    intro w hw c hc
    simp [splitSep] at hw
    subst hw
    simp at hc
  | cons a rest ih =>
    intro w hw c hc
    by_cases h : p a = true
    · simp only [splitSep, h, if_true] at hw
      rcases List.mem_cons.mp hw with h1 | h2
      · subst h1; simp at hc
      · exact ih w h2 c hc
    · simp only [splitSep, h, Bool.false_eq_true, if_false] at hw
      cases hs : splitSep p rest with
      | nil => exact absurd hs (splitSep_ne_nil p rest)
      | cons u us =>
        rw [hs] at hw
        rcases List.mem_cons.mp hw with h1 | h2
        · subst h1
          rcases List.mem_cons.mp hc with h3 | h4
          · subst h3
            exact Bool.eq_false_iff.mpr h
          · exact ih u (by rw [hs]; exact List.mem_cons_self u us) c h4
        · exact ih w (by rw [hs]; exact List.mem_cons_of_mem u h2) c hc

theorem caseSplitAux_chars :
    ∀ (rest : List Char) (mode : WordMode) (acc : List Char) (c : Char),
      ∀ w ∈ caseSplitAux mode acc c rest, ∀ x ∈ w, x ∈ acc ∨ x = c ∨ x ∈ rest := by
  intro rest
  induction rest with
  | nil =>
    intro mode acc c w hw x hx
    simp only [caseSplitAux, List.mem_singleton] at hw
    subst hw
    rcases List.mem_append.mp hx with h | h
    · exact Or.inl h
    · simp at h
      exact Or.inr (Or.inl h)
  | cons next rest ih =>
    intro mode acc c w hw x hx
    simp only [caseSplitAux] at hw
    split at hw
    · rcases List.mem_cons.mp hw with h1 | h2
      · subst h1
        rcases List.mem_append.mp hx with h | h
        · exact Or.inl h
        · simp at h
          exact Or.inr (Or.inl h)
      · rcases ih WordMode.boundary [] next w h2 x hx with h | h | h
        · simp at h
        · exact Or.inr (Or.inr (h ▸ List.mem_cons_self next rest))
        · exact Or.inr (Or.inr (List.mem_cons_of_mem next h))
    · split at hw
      · rcases List.mem_cons.mp hw with h1 | h2
        · subst h1
          exact Or.inl hx
        · rcases ih WordMode.boundary [c] next w h2 x hx with h | h | h
          · simp at h
            exact Or.inr (Or.inl h)
          · exact Or.inr (Or.inr (h ▸ List.mem_cons_self next rest))
          · exact Or.inr (Or.inr (List.mem_cons_of_mem next h))
      · rcases ih (nextModeOf mode c) (acc ++ [c]) next w hw x hx with h | h | h
        · rcases List.mem_append.mp h with h' | h'
          · exact Or.inl h'
          · simp at h'
            exact Or.inr (Or.inl h')
        · exact Or.inr (Or.inr (h ▸ List.mem_cons_self next rest))
        · exact Or.inr (Or.inr (List.mem_cons_of_mem next h))

theorem caseSplitAux_ne_nil :
    ∀ (rest : List Char) (mode : WordMode) (acc : List Char) (c : Char),
      (mode = WordMode.uppercase → acc ≠ []) →
      ∀ w ∈ caseSplitAux mode acc c rest, w ≠ [] := by
  intro rest
  induction rest with
  | nil =>
    intro mode acc c _ w hw
    simp only [caseSplitAux, List.mem_singleton] at hw
    subst hw
    simp
  | cons next rest ih =>
    intro mode acc c hinv w hw
    simp only [caseSplitAux] at hw
    split at hw
    · rcases List.mem_cons.mp hw with h1 | h2
      · subst h1; simp
      · exact ih WordMode.boundary [] next (by intro h; cases h) w h2
    · rename_i hcond1
      split at hw
      · rename_i hcond2
        rcases List.mem_cons.mp hw with h1 | h2
        · subst h1
          have : mode = WordMode.uppercase := by
            simp only [Bool.and_eq_true, beq_iff_eq] at hcond2
            exact hcond2.1.1
          exact hinv this
        · exact ih WordMode.boundary [c] next (by intro _; simp) w h2
      · exact ih (nextModeOf mode c) (acc ++ [c]) next (by intro _; simp) w hw

theorem caseSplitAux_no_upper :
    ∀ (rest : List Char) (mode : WordMode) (acc : List Char) (c : Char),
      isUpperC c = false → c ≠ '_' →
      (∀ x ∈ rest, isUpperC x = false ∧ x ≠ '_') →
      caseSplitAux mode acc c rest = [acc ++ c :: rest] := by
  intro rest
  induction rest with
  | nil =>
    intro mode acc c _ _ _
    simp [caseSplitAux]
  | cons next rest ih =>
    intro mode acc c hc _ hrest
    have hnext : isUpperC next = false ∧ next ≠ '_' :=
      hrest next (List.mem_cons_self next rest)
    have hcond1 :
        (next == '_' || (nextModeOf mode c == WordMode.lowercase && isUpperC next)) = false := by
      simp [hnext.1, hnext.2]
    have hcond2 : (mode == WordMode.uppercase && isUpperC c && isLowerC next) = false := by
      simp [hc]
    simp only [caseSplitAux, hcond1, Bool.false_eq_true, if_false, hcond2]
    rw [ih (nextModeOf mode c) (acc ++ [c]) next hnext.1 hnext.2
      (fun x hx => hrest x (List.mem_cons_of_mem next hx))]
    simp

theorem caseSplit_chars :
    ∀ (seg : List Char), ∀ w ∈ caseSplit seg, ∀ x ∈ w, x ∈ seg := by
  intro seg w hw x hx
  cases seg with
  | nil => simp [caseSplit] at hw
  | cons c rest =>
    rcases caseSplitAux_chars rest WordMode.boundary [] c w hw x hx with h | h | h
    · simp at h
    · exact h ▸ List.mem_cons_self c rest
    · exact List.mem_cons_of_mem c h

theorem caseSplit_ne_nil :
    ∀ (seg : List Char), ∀ w ∈ caseSplit seg, w ≠ [] := by
  intro seg w hw
  cases seg with
  | nil => simp [caseSplit] at hw
  | cons c rest =>
    exact caseSplitAux_ne_nil rest WordMode.boundary [] c (by intro h; cases h) w hw

theorem caseSplit_fixed :
    ∀ (seg : List Char), seg ≠ [] →
      (∀ x ∈ seg, isUpperC x = false ∧ x ≠ '_') →
      caseSplit seg = [seg] := by
  intro seg hne hseg
  cases seg with
  | nil => exact absurd rfl hne
  | cons c rest =>
    have hc : isUpperC c = false ∧ c ≠ '_' := hseg c (List.mem_cons_self c rest)
    rw [caseSplit, caseSplitAux_no_upper rest WordMode.boundary [] c hc.1 hc.2
      (fun x hx => hseg x (List.mem_cons_of_mem c hx))]
    simp

theorem heckWords_sound :
    ∀ (s : List Char), ∀ w ∈ heckWords s, w ≠ [] ∧ ∀ x ∈ w, isAlnumC x = true := by
  intro s w hw
  simp only [heckWords, List.mem_flatten, List.mem_map] at hw
  rcases hw with ⟨l, ⟨seg, hseg, rfl⟩, hwl⟩
  refine ⟨caseSplit_ne_nil seg w hwl, ?_⟩
  intro x hx
  have hxseg : x ∈ seg := caseSplit_chars seg w hwl x hx
  have := mem_splitSep_sep_false (fun c => !isAlnumC c) s seg hseg x hxseg
  simpa using this

theorem splitSep_append_word (p : Char → Bool) :
    ∀ (w xs : List Char) (u : List Char) (us : List (List Char)),
      (∀ c ∈ w, p c = false) → splitSep p xs = u :: us →
      splitSep p (w ++ xs) = (w ++ u) :: us := by
  intro w
  induction w with
  | nil =>
    intro xs u us _ hxs
    simpa using hxs
  | cons c w ih =>
    intro xs u us hw hxs
    have hc : p c = false := hw c (List.mem_cons_self c w)
    have hrec := ih xs u us (fun x hx => hw x (List.mem_cons_of_mem c hx)) hxs
    simp only [List.cons_append, splitSep, hc, Bool.false_eq_true, if_false,
      List.append_eq, hrec]

theorem splitSep_joinWords (p : Char → Bool) (hund : p '_' = true) :
    ∀ (ws : List (List Char)), ws ≠ [] →
      (∀ w ∈ ws, w ≠ [] ∧ ∀ c ∈ w, p c = false) →
      splitSep p (joinWords ['_'] ws) = ws := by
  intro ws
  induction ws with
  | nil => intro h; exact absurd rfl h
  | cons w ws ih =>
    intro _ hall
    cases ws with
    | nil =>
      have hw := hall w (List.mem_cons_self w [])
      have : splitSep p (w ++ ([] : List Char)) = (w ++ []) :: [] :=
        splitSep_append_word p w [] [] [] hw.2 (by simp [splitSep])
      simpa [joinWords] using this
    | cons w' ws' =>
      have hw := hall w (List.mem_cons_self w (w' :: ws'))
      have hrest : splitSep p (joinWords ['_'] (w' :: ws')) = w' :: ws' :=
        ih (by simp) (fun x hx => hall x (List.mem_cons_of_mem w hx))
      have hund' : splitSep p ('_' :: joinWords ['_'] (w' :: ws')) =
          [] :: (w' :: ws') := by
        simp only [splitSep, hund, if_true, hrest]
      have := splitSep_append_word p w ('_' :: joinWords ['_'] (w' :: ws'))
        [] (w' :: ws') hw.2 hund'
      simp only [joinWords] at *
      simpa using this

theorem map_toLowerC_fixed :
    ∀ (w : List Char), (∀ x ∈ w, isUpperC x = false) → w.map toLowerC = w := by
  intro w hw
  induction w with
  | nil => rfl
  | cons c rest ih =>
    simp only [List.map_cons]
    rw [toLowerC_eq_self (hw c (List.mem_cons_self c rest)),
      ih (fun x hx => hw x (List.mem_cons_of_mem c hx))]

theorem flatten_map_singleton (l : List (List Char)) :
    (l.map (fun w => [w])).flatten = l := by
  induction l with
  | nil => rfl
  | cons w ws ih => simp [ih]

theorem heckWords_toSnakeCaseL (s : List Char) :
    heckWords (toSnakeCaseL s) = (heckWords s).map (List.map toLowerC) := by
  by_cases hnil : heckWords s = []
  · rw [toSnakeCaseL, hnil]
    simp [joinWords, heckWords, splitSep, caseSplit]
  · have hpieces : ∀ w ∈ (heckWords s).map (List.map toLowerC),
        w ≠ [] ∧ (∀ c ∈ w, isAlnumC c = true) ∧ (∀ c ∈ w, isUpperC c = false ∧ c ≠ '_') := by
      intro w hw
      rcases List.mem_map.mp hw with ⟨w0, hw0, rfl⟩
      have hsound := heckWords_sound s w0 hw0
      refine ⟨by simpa using hsound.1, ?_, ?_⟩
      · intro c hc
        rcases List.mem_map.mp hc with ⟨c0, hc0, rfl⟩
        exact isAlnumC_toLowerC (hsound.2 c0 hc0)
      · intro c hc
        rcases List.mem_map.mp hc with ⟨c0, hc0, rfl⟩
        exact ⟨isUpperC_toLowerC c0, toLowerC_ne_underscore (hsound.2 c0 hc0)⟩
    have hsplit : splitSep (fun c => !isAlnumC c) (toSnakeCaseL s) =
        (heckWords s).map (List.map toLowerC) := by
      rw [toSnakeCaseL]
      apply splitSep_joinWords (fun c => !isAlnumC c) (by decide)
      · simpa using hnil
      · intro w hw
        refine ⟨(hpieces w hw).1, ?_⟩
        intro c hc
        simpa using (hpieces w hw).2.1 c hc
    rw [heckWords, hsplit]
    have hcs : ((heckWords s).map (List.map toLowerC)).map caseSplit =
        ((heckWords s).map (List.map toLowerC)).map (fun w => [w]) := by
      apply List.map_congr_left
      intro w hw
      exact caseSplit_fixed w (hpieces w hw).1 (hpieces w hw).2.2
    rw [hcs, flatten_map_singleton]

theorem toSnakeCaseL_idem (s : List Char) :
    toSnakeCaseL (toSnakeCaseL s) = toSnakeCaseL s := by
  rw [toSnakeCaseL, heckWords_toSnakeCaseL]
  have : ((heckWords s).map (List.map toLowerC)).map (List.map toLowerC) =
      (heckWords s).map (List.map toLowerC) := by
    rw [List.map_map]
    apply List.map_congr_left
    intro w _
    show (List.map toLowerC w).map toLowerC = List.map toLowerC w
    apply map_toLowerC_fixed
    intro x hx
    rcases List.mem_map.mp hx with ⟨c0, _, rfl⟩
    exact isUpperC_toLowerC c0
  rw [this, toSnakeCaseL]

/- ===================================================================
   Protobuf descriptor data model, mirroring the prost_types structures
   the plugins consume (FileDescriptorProto, DescriptorProto,
   FieldDescriptorProto, OneofDescriptorProto, EnumDescriptorProto,
   ServiceDescriptorProto, MethodDescriptorProto).  Optional protobuf
   fields are Option; the prost getters with their proto2 defaults
   (label defaults to Optional, type to Double) are explicit functions.
   =================================================================== -/

/-- prost field_descriptor_proto::Label. -/
inductive FieldLabel where
  | optional
  | required
  | repeated
deriving DecidableEq, Repr

/-- prost field_descriptor_proto::Type. -/
inductive FieldType where
  | double
  | float
  | int64
  | uint64
  | int32
  | fixed64
  | fixed32
  | boolTy
  | stringTy
  | group
  | message
  | bytes
  | uint32
  | enumTy
  | sfixed32
  | sfixed64
  | sint32
  | sint64
deriving DecidableEq, Repr

/-- prost FieldDescriptorProto (the fields the plugins read). -/
structure FieldDescriptorProto where
  name : Option String
  label : Option FieldLabel
  ftype : Option FieldType
  typeName : Option String
  oneofIndex : Option Int
  proto3Optional : Option Bool
deriving DecidableEq, Repr

/-- prost getter field.label(), defaulting to Label::Optional. -/
def FieldDescriptorProto.getLabel (f : FieldDescriptorProto) : FieldLabel :=
  f.label.getD FieldLabel.optional

/-- prost getter field.r#type(), defaulting to Type::Double. -/
def FieldDescriptorProto.getType (f : FieldDescriptorProto) : FieldType :=
  f.ftype.getD FieldType.double

/-- prost OneofDescriptorProto. -/
structure OneofDescriptorProto where
  name : Option String
deriving DecidableEq, Repr

/-- prost EnumValueDescriptorProto. -/
structure EnumValueDescriptorProto where
  name : Option String
  number : Option Int
deriving DecidableEq, Repr

/-- prost EnumDescriptorProto. -/
structure EnumDescriptorProto where
  name : Option String
  value : List EnumValueDescriptorProto
deriving DecidableEq, Repr

/-- prost DescriptorProto (message descriptor); nested messages make this
a nested inductive. -/
inductive DescriptorProto where
  | mk (name : Option String) (field : List FieldDescriptorProto)
      (nestedType : List DescriptorProto) (oneofDecl : List OneofDescriptorProto)

def DescriptorProto.name : DescriptorProto → Option String
  | .mk n _ _ _ => n

def DescriptorProto.field : DescriptorProto → List FieldDescriptorProto
  | .mk _ f _ _ => f

def DescriptorProto.nestedType : DescriptorProto → List DescriptorProto
  | .mk _ _ nt _ => nt

def DescriptorProto.oneofDecl : DescriptorProto → List OneofDescriptorProto
  | .mk _ _ _ od => od

/-- prost MethodOptions: the stubbed annotation decoder never reads its
contents, so its payload is irrelevant to the embedded code. -/
inductive MethodOptions where
  | mk
deriving DecidableEq, Repr

/-- prost ServiceOptions, likewise opaque to the stubbed decoder. -/
inductive ServiceOptions where
  | mk
deriving DecidableEq, Repr

/-- prost MethodDescriptorProto. -/
structure MethodDescriptorProto where
  name : Option String
  inputType : Option String
  outputType : Option String
  options : Option MethodOptions
deriving DecidableEq, Repr

/-- prost ServiceDescriptorProto. -/
structure ServiceDescriptorProto where
  name : Option String
  method : List MethodDescriptorProto
  options : Option ServiceOptions
deriving DecidableEq, Repr

/-- prost FileDescriptorProto (the fields the plugins read). -/
structure FileDescriptorProto where
  name : Option String
  package : Option String
  messageType : List DescriptorProto
  enumType : List EnumDescriptorProto
  service : List ServiceDescriptorProto

mutual

/-- A message descriptor together with all its transitively nested
message descriptors, in declaration order. -/
def DescriptorProto.withNested : DescriptorProto → List DescriptorProto
  | .mk n fs nts ods => DescriptorProto.mk n fs nts ods :: withNestedList nts

/-- The concatenation of withNested over a list of message descriptors. -/
def withNestedList : List DescriptorProto → List DescriptorProto
  | [] => []
  | m :: ms => DescriptorProto.withNested m ++ withNestedList ms

end

/-- Every message declared in a file, top-level or nested. -/
def allMessages (file : FileDescriptorProto) : List DescriptorProto :=
  withNestedList file.messageType

theorem self_mem_withNested (m : DescriptorProto) : m ∈ m.withNested := by
  cases m with
  | mk n fs nts ods =>
    rw [DescriptorProto.withNested]
    exact List.mem_cons_self _ _

theorem mem_withNestedList_of_mem {ms : List DescriptorProto} {m : DescriptorProto}
    (h : m ∈ ms) : m ∈ withNestedList ms := by
  induction ms with
  | nil => simp at h
  | cons hd tl ih =>
    rw [withNestedList]
    rcases List.mem_cons.mp h with h1 | h2
    · subst h1
      exact List.mem_append_left _ (self_mem_withNested m)
    · exact List.mem_append_right _ (ih h2)

theorem mem_allMessages_of_mem_top {file : FileDescriptorProto} {m : DescriptorProto}
    (h : m ∈ file.messageType) : m ∈ allMessages file :=
  mem_withNestedList_of_mem h

/- ===================================================================
   sebuf-core parser.rs: TypeMapper.
   =================================================================== -/

namespace TypeMapper

/-- sebuf-core TypeMapper::field_to_rust_type: scalar base types mapped
1:1; message, enum and group fields use the raw type_name (or "Unknown");
then Label::Optional wraps in Option, Label::Repeated in Vec. -/
def fieldToRustType (field : FieldDescriptorProto) : String :=
  let baseType : String := match field.getType with
    | .double => "f64"
    | .float => "f32"
    | .int64 => "i64"
    | .uint64 => "u64"
    | .int32 => "i32"
    | .fixed64 => "u64"
    | .fixed32 => "u32"
    | .boolTy => "bool"
    | .stringTy => "String"
    | .bytes => "Vec<u8>"
    | .uint32 => "u32"
    | .sfixed32 => "i32"
    | .sfixed64 => "i64"
    | .sint32 => "i32"
    | .sint64 => "i64"
    | .message => field.typeName.getD "Unknown"
    | .enumTy => field.typeName.getD "Unknown"
    | .group => field.typeName.getD "Unknown"
  match field.getLabel with
  | .optional => "Option<" ++ baseType ++ ">"
  | .repeated => "Vec<" ++ baseType ++ ">"
  | .required => baseType

/-- sebuf-core TypeMapper::message_name_to_rust. -/
def messageNameToRust (name : String) : String := toUpperCamelCaseS name

/-- sebuf-core TypeMapper::field_name_to_rust. -/
def fieldNameToRust (name : String) : String := toSnakeCaseS name

/-- sebuf-core TypeMapper::method_name_to_rust. -/
def methodNameToRust (name : String) : String := toSnakeCaseS name

end TypeMapper

/- ===================================================================
   sebuf-core codegen.rs: CodeGenerator, the code assembly buffer.
   Token streams are modelled by their rendered text; the external syn
   parser and prettyplease printer are parameters of generate.
   =================================================================== -/

/-- sebuf-core CodeGenerator: ordered accumulator of import and item
token streams. -/
structure CodeGenerator where
  imports : List String
  items : List String
deriving DecidableEq, Repr

/-- CodeGenerator::new. -/
def CodeGenerator.new : CodeGenerator := { imports := [], items := [] }

/-- CodeGenerator::add_import (push at the end). -/
def CodeGenerator.addImport (g : CodeGenerator) (i : String) : CodeGenerator :=
  { g with imports := g.imports ++ [i] }

/-- CodeGenerator::add_item (push at the end). -/
def CodeGenerator.addItem (g : CodeGenerator) (i : String) : CodeGenerator :=
  { g with items := g.items ++ [i] }

/-- The quote/to_string rendering of the accumulated buffer: all imports
then all items, interleaved as one token stream. -/
def CodeGenerator.render (g : CodeGenerator) : String :=
  String.intercalate " " (g.imports ++ g.items)

/-- CodeGenerator::generate: render to text, attempt the syn parse; on
success return the prettyplease unparse of the syntax tree, on failure
return the unformatted rendering.  parseFile and unparse stand for the
external syn::parse_file and prettyplease::unparse. -/
def CodeGenerator.generate {α : Type} (parseFile : String → Option α)
    (unparse : α → String) (g : CodeGenerator) : String :=
  let fileStr := g.render
  match parseFile fileStr with
  | some syntaxTree => unparse syntaxTree
  | none => fileStr

/- ===================================================================
   sebuf-core plugin.rs: the plugin transport.
   =================================================================== -/

/-- sebuf-core PluginError (thiserror enum; each variant carries its
display message). -/
inductive PluginError where
  | readError (msg : String)
  | decodeError (msg : String)
  | encodeError (msg : String)
  | generationError (msg : String)
deriving DecidableEq, Repr

/-- prost compiler::code_generator_response::File. -/
structure RespFile where
  name : Option String
  content : Option String
deriving DecidableEq, Repr

/-- prost compiler::CodeGeneratorResponse (the fields the plugins set:
the error field is never written by any of the three plugins). -/
structure CodeGeneratorResponse where
  error : Option String
  supportedFeatures : Option Nat
  file : List RespFile
deriving DecidableEq, Repr

/-- prost compiler::CodeGeneratorRequest (the fields the plugins read). -/
structure CodeGeneratorRequest where
  fileToGenerate : List String
  protoFile : List FileDescriptorProto

/-- sebuf-core run_plugin: read stdin, decode the request, run the
plugin's process, encode and write the response.  The stdin read, the
prost decode and the prost encode are parameters; the ok value is the
byte stream written to stdout.  Every error is propagated to the caller
(main) via the question-mark operator, with nothing written. -/
def runPlugin (readStdin : Except String (List Nat))
    (decode : List Nat → Except String CodeGeneratorRequest)
    (process : CodeGeneratorRequest → Except PluginError CodeGeneratorResponse)
    (encode : CodeGeneratorResponse → List Nat) :
    Except PluginError (List Nat) :=
  match readStdin with
  | .error e => .error (PluginError.readError e)
  | .ok input =>
    match decode input with
    | .error e => .error (PluginError.decodeError e)
    | .ok request =>
      match process request with
      | .error e => .error e
      | .ok response => .ok (encode response)

/- ===================================================================
   protoc-gen-rust-openapiv3 generator.rs: the API-schema emitter parts
   the claims are about.
   =================================================================== -/

/-- The openapi generator's resolve_type_name: strip leading dots, split
on dots, take the last component (the unwrap_or fallback returns the
original name and is unreachable because a split is never empty). -/
def resolveTypeNameOpenapi (typeName : String) : String :=
  match (splitSep (fun c => c == '.') (typeName.data.dropWhile (fun c => c == '.'))).getLast? with
  | some w => ⟨w⟩
  | none => typeName

/-- openapi schema.rs Schema (the serializable JSON-Schema node); the
properties map is modelled as an insertion-ordered association list. -/
inductive Schema where
  | mk (schemaType : Option String) (format : Option String)
      (reference : Option String)
      (properties : Option (List (String × Schema)))
      (required : Option (List String))
      (items : Option Schema)
      (description : Option String)
      (enumValues : Option (List String))

def Schema.schemaType : Schema → Option String
  | .mk t _ _ _ _ _ _ _ => t

def Schema.format : Schema → Option String
  | .mk _ f _ _ _ _ _ _ => f

def Schema.reference : Schema → Option String
  | .mk _ _ r _ _ _ _ _ => r

def Schema.properties : Schema → Option (List (String × Schema))
  | .mk _ _ _ p _ _ _ _ => p

def Schema.required : Schema → Option (List String)
  | .mk _ _ _ _ r _ _ _ => r

def Schema.items : Schema → Option Schema
  | .mk _ _ _ _ _ i _ _ => i

def Schema.enumValues : Schema → Option (List String)
  | .mk _ _ _ _ _ _ _ e => e

/-- HashMap::insert on the association-list model: replace an existing
binding, otherwise append. -/
def insertAssoc (m : List (String × Schema)) (k : String) (v : Schema) :
    List (String × Schema) :=
  if m.any (fun kv => kv.1 == k) then
    m.map (fun kv => if kv.1 == k then (k, v) else kv)
  else m ++ [(k, v)]

/-- HashMap lookup on the association-list model. -/
def lookupAssoc (m : List (String × Schema)) (k : String) : Option Schema :=
  (m.find? (fun kv => kv.1 == k)).map (fun kv => kv.2)

/-- openapi generator field_to_schema: the schema-type projection of one
field, with repeated fields wrapped in an array schema. -/
def fieldToSchema (field : FieldDescriptorProto) : Schema :=
  let base : Schema := match field.getType with
    | .double =>
      Schema.mk (some "number") (some "double") none none none none none none
    | .float =>
      Schema.mk (some "number") (some "float") none none none none none none
    | .int64 =>
      Schema.mk (some "integer") (some "int64") none none none none none none
    | .uint64 =>
      Schema.mk (some "integer") (some "int64") none none none none none none
    | .sint64 =>
      Schema.mk (some "integer") (some "int64") none none none none none none
    | .fixed64 =>
      Schema.mk (some "integer") (some "int64") none none none none none none
    | .sfixed64 =>
      Schema.mk (some "integer") (some "int64") none none none none none none
    | .int32 =>
      Schema.mk (some "integer") (some "int32") none none none none none none
    | .uint32 =>
      Schema.mk (some "integer") (some "int32") none none none none none none
    | .sint32 =>
      Schema.mk (some "integer") (some "int32") none none none none none none
    | .fixed32 =>
      Schema.mk (some "integer") (some "int32") none none none none none none
    | .sfixed32 =>
      Schema.mk (some "integer") (some "int32") none none none none none none
    | .boolTy =>
      Schema.mk (some "boolean") none none none none none none none
    | .stringTy =>
      Schema.mk (some "string") none none none none none none none
    | .bytes =>
      Schema.mk (some "string") (some "byte") none none none none none none
    | .message =>
      Schema.mk none none
        (some ("#/components/schemas/" ++ resolveTypeNameOpenapi (field.typeName.getD "")))
        none none none none none
    | .enumTy =>
      Schema.mk none none
        (some ("#/components/schemas/" ++ resolveTypeNameOpenapi (field.typeName.getD "")))
        none none none none none
    | .group =>
      Schema.mk (some "object") none none none none none none none
  match field.getLabel with
  | .repeated =>
    Schema.mk (some "array") none none none none (some base) none none
  | _ => base

/-- openapi generator message_to_schema: an object schema with one
property per named field, and a required entry for every named field
that is neither proto3-optional nor labelled Optional. -/
def messageToSchema (message : DescriptorProto) : Schema :=
  let st := message.field.foldl
    (fun (st : List (String × Schema) × List String) field =>
      match field.name with
      | none => st
      | some fieldName =>
        let props := insertAssoc st.1 fieldName (fieldToSchema field)
        let req :=
          if !(field.proto3Optional.getD false) && field.getLabel != FieldLabel.optional
          then st.2 ++ [fieldName]
          else st.2
        (props, req))
    ([], [])
  Schema.mk (some "object") none none (some st.1)
    (if st.2.isEmpty then none else some st.2) none none none

/-- openapi generator enum_to_schema: a string schema enumerating the
named values. -/
def enumToSchema (enumType : EnumDescriptorProto) : Schema :=
  Schema.mk (some "string") none none none none none none
    (some (enumType.value.filterMap (fun v => v.name)))

/-- openapi generator add_method_to_spec: the key under which the
method's path item is inserted into the paths map. -/
def openapiMethodPath (method : MethodDescriptorProto) : String :=
  "/api/v1/" ++ toSnakeCaseS (method.name.getD "")

/-- The path keys of one service's openapi document, in method order. -/
def openapiServicePaths (service : ServiceDescriptorProto) : List String :=
  service.method.map openapiMethodPath

/- ===================================================================
   protoc-gen-rust-http annotations.rs and generator.rs: the
   service-surface emitter parts the claims are about.
   =================================================================== -/

/-- annotations.rs HttpRule. -/
structure HttpRule where
  method : String
  path : String
  body : Option String
  responseBody : Option String
deriving DecidableEq, Repr

/-- annotations.rs parse_http_rule: the stubbed custom-option decoder;
it ignores the options and always returns the placeholder rule. -/
def parseHttpRule (_options : MethodOptions) : Option HttpRule :=
  some { method := "POST", path := "/api/v1/default", body := some "*",
         responseBody := none }

/-- annotations.rs parse_service_headers: stubbed to None. -/
def parseServiceHeaders (_options : ServiceOptions) : Option (List String) :=
  none

/-- generator.rs generate_router's per-method default closure: POST to
/api/v1/<snake-cased-method-name> with wildcard body binding. -/
def defaultHttpRule (method : MethodDescriptorProto) : HttpRule :=
  { method := "POST",
    path := "/api/v1/" ++ toSnakeCaseS (method.name.getD ""),
    body := some "*",
    responseBody := none }

/-- generator.rs generate_router's routing decision for one method:
options.and_then(parse_http_rule).unwrap_or_else(default). -/
def httpRuleFor (method : MethodDescriptorProto) : HttpRule :=
  match method.options.bind parseHttpRule with
  | some rule => rule
  | none => defaultHttpRule method

/-- Rust String::to_lowercase, ASCII fragment. -/
def asciiLowerS (s : String) : String := ⟨s.data.map toLowerC⟩

/-- One .route(path, verb(handler)) entry of the generated router. -/
structure RouteEntry where
  path : String
  verb : String
  handler : String
deriving DecidableEq, Repr

/-- The route entry generate_router emits for one method. -/
def routeEntryFor (method : MethodDescriptorProto) : RouteEntry :=
  let rule := httpRuleFor method
  { path := rule.path,
    verb := asciiLowerS rule.method,
    handler := toSnakeCaseS (method.name.getD "") ++ "_handler" }

/-- generator.rs generate_router: the route table binds one entry per
method, in order. -/
def generateRoutes (service : ServiceDescriptorProto) : List RouteEntry :=
  service.method.map routeEntryFor

/-- The http generator's resolve_type_name: strip leading dots, last dot
component, then upper camel case (unreachable fallback as above). -/
def resolveTypeNameHttp (typeName : String) : String :=
  match (splitSep (fun c => c == '.') (typeName.data.dropWhile (fun c => c == '.'))).getLast? with
  | some w => toUpperCamelCaseS ⟨w⟩
  | none => toUpperCamelCaseS typeName

/- ===================================================================
   protoc-gen-rust-oneof-helper generator.rs and main.rs.
   =================================================================== -/

/-- Rust str::replace for a non-empty pattern: replace every
left-to-right non-overlapping occurrence (the generator only replaces
the non-empty pattern ".proto").  The fuel argument only drives
structural termination; every step consumes at least one character, so
fuel = length of the input never runs out. -/
def replaceAllAux (pat repl : List Char) : Nat → List Char → List Char
  | 0, s => s
  | _ + 1, [] => []
  | fuel + 1, c :: rest =>
    if pat ≠ [] ∧ pat.isPrefixOf (c :: rest) then
      repl ++ replaceAllAux pat repl fuel ((c :: rest).drop pat.length)
    else
      c :: replaceAllAux pat repl fuel rest

/-- Rust str::replace (non-empty pattern). -/
def replaceAll (pat repl : List Char) (s : List Char) : List Char :=
  replaceAllAux pat repl s.length s

/-- Rust str::ends_with. -/
def strEndsWith (s suffix : String) : Bool := suffix.data.isSuffixOf s.data

/-- The oneof generator's resolve_type_name: last dot component (no
leading-dot strip in this copy), then upper camel case. -/
def resolveTypeNameOneof (typeName : String) : String :=
  match (splitSep (fun c => c == '.') typeName.data).getLast? with
  | some w => toUpperCamelCaseS ⟨w⟩
  | none => toUpperCamelCaseS typeName

/-- The oneof generator's own field_to_rust_type: scalar base types as in
the core mapper, message and enum resolved to the short camel name,
group to "Unknown"; Option wrapping only for proto3-optional fields,
Vec wrapping for repeated ones. -/
def fieldToRustTypeOneof (field : FieldDescriptorProto) : String :=
  let baseType : String := match field.getType with
    | .double => "f64"
    | .float => "f32"
    | .int64 => "i64"
    | .uint64 => "u64"
    | .int32 => "i32"
    | .fixed64 => "u64"
    | .fixed32 => "u32"
    | .boolTy => "bool"
    | .stringTy => "String"
    | .bytes => "Vec<u8>"
    | .uint32 => "u32"
    | .sfixed32 => "i32"
    | .sfixed64 => "i64"
    | .sint32 => "i32"
    | .sint64 => "i64"
    | .message => resolveTypeNameOneof (field.typeName.getD "Unknown")
    | .enumTy => resolveTypeNameOneof (field.typeName.getD "Unknown")
    | .group => "Unknown"
  match field.getLabel with
  | .optional =>
    if field.proto3Optional.getD false then "Option<" ++ baseType ++ ">" else baseType
  | .repeated => "Vec<" ++ baseType ++ ">"
  | .required => baseType

/-- The oneof generator's extract_message_fields: scan the file's
top-level messages for the first named one whose name is a suffix of the
type reference; return its (snake-cased name, rust type) pairs, or the
empty list when nothing matches. -/
def extractMessageFields (file : FileDescriptorProto) (typeName : String) :
    List (String × String) :=
  match file.messageType.find?
      (fun m => match m.name with
        | some msgName => strEndsWith typeName msgName
        | none => false) with
  | some m =>
    m.field.filterMap
      (fun f => f.name.map (fun n => (toSnakeCaseS n, fieldToRustTypeOneof f)))
  | none => []

/-- One constructor function emitted by generate_constructor_for_field,
as the data the emitted token stream is built from: the parameter
declarations and the field assignments are both derived from params. -/
structure OneofConstructor where
  functionName : String
  messageStruct : String
  oneofField : String
  variantName : String
  innerType : String
  params : List (String × String)
deriving DecidableEq, Repr

/-- generator.rs generate_constructor_for_field. -/
def generateConstructorForField (file : FileDescriptorProto)
    (messageStruct : String) (messageName oneofName : String)
    (field : FieldDescriptorProto) : OneofConstructor :=
  let fieldName := field.name.getD ""
  let fieldTypeName := field.typeName.getD ""
  { functionName :=
      "new_" ++ toSnakeCaseS messageName ++ "_" ++ toSnakeCaseS fieldName,
    messageStruct := messageStruct,
    oneofField := toSnakeCaseS oneofName,
    variantName := toUpperCamelCaseS fieldName,
    innerType := resolveTypeNameOneof fieldTypeName,
    params := extractMessageFields file fieldTypeName }

/-- generator.rs generate_oneof_helpers: one constructor per member
field of the oneof whose type is Message. -/
def generateOneofHelpers (file : FileDescriptorProto) (message : DescriptorProto)
    (messageName oneofName : String) (oneofIndex : Int) : List OneofConstructor :=
  (message.field.filter
      (fun f => f.oneofIndex == some oneofIndex && f.getType == FieldType.message)).map
    (generateConstructorForField file (toUpperCamelCaseS messageName) messageName oneofName)

/-- Whether the generate loop saw any named oneof inside a named
top-level message (the has_oneofs flag). -/
def oneofHasOneofs (file : FileDescriptorProto) : Bool :=
  file.messageType.any
    (fun m => m.name.isSome && m.oneofDecl.any (fun o => o.name.isSome))

/-- All constructors the generate loop adds to the code buffer, in
order: top-level messages, their oneofs by index, their message-typed
member fields. -/
def oneofItems (file : FileDescriptorProto) : List OneofConstructor :=
  (file.messageType.map (fun message =>
    match message.name with
    | none => []
    | some messageName =>
      ((message.oneofDecl.enum.map (fun oi =>
        match oi.2.name with
        | none => []
        | some oneofName =>
          generateOneofHelpers file message messageName oneofName (Int.ofNat oi.1))).flatten))).flatten

/-- The artifact OneofHelperGenerator::generate returns: the output file
name and the emitted constructors. -/
structure OneofArtifact where
  name : String
  items : List OneofConstructor
deriving DecidableEq, Repr

/-- generator.rs OneofHelperGenerator::generate: None when no named
top-level message declares a named oneof, otherwise the artifact named
file-stem.oneof_helpers.rs with the accumulated constructors. -/
def oneofGenerate (file : FileDescriptorProto) : Option OneofArtifact :=
  if !oneofHasOneofs file then none
  else
    some { name := (⟨replaceAll ".proto".data [] (file.name.getD "unknown").data⟩ : String)
             ++ ".oneof_helpers.rs",
           items := oneofItems file }

/-- main.rs OneofHelperPlugin::process, the per-file loop: skip files
not requested for generation, forward a generator error as
PluginError::GenerationError, collect the generated artifacts in order
(gen stands for OneofHelperGenerator::generate, which in this plugin
never fails, but the loop's error branch is part of the code). -/
def oneofProcessFiles (gen : FileDescriptorProto → Except String (Option RespFile)) :
    List FileDescriptorProto → List String → Except PluginError (List RespFile)
  | [], _ => .ok []
  | f :: rest, toGenerate =>
    if (f.name.getD "") ∈ toGenerate then
      match gen f with
      | .error e => .error (PluginError.generationError e)
      | .ok none => oneofProcessFiles gen rest toGenerate
      | .ok (some generated) =>
        (oneofProcessFiles gen rest toGenerate).map (fun files => generated :: files)
    else
      oneofProcessFiles gen rest toGenerate

/-- main.rs OneofHelperPlugin::process: run the per-file loop, then set
supported_features to Proto3Optional (bit value 1); the response error
field is never set. -/
def oneofProcess (gen : FileDescriptorProto → Except String (Option RespFile))
    (request : CodeGeneratorRequest) : Except PluginError CodeGeneratorResponse :=
  match oneofProcessFiles gen request.protoFile request.fileToGenerate with
  | .error e => .error e
  | .ok files =>
    .ok { error := none, supportedFeatures := some 1, file := files }

/- ===================================================================
   The resolver contract from the specification, and the equivalence of
   the source resolver with it.
   =================================================================== -/

/-- Modelled from the spec (resolver contract): given a schema type name,
possibly fully qualified with a leading separator and dotted
package/nesting path, return the short, last-component identifier —
the characters after the last dot. -/
def shortNameSpec (typeName : String) : String :=
  ⟨typeName.data.foldl (fun acc c => if c == '.' then [] else acc ++ [c]) []⟩

theorem foldl_splitSep (p : Char → Bool) :
    ∀ (l : List Char) (acc : List Char),
      l.foldl (fun a c => if p c then [] else a ++ [c]) acc =
      if (splitSep p l).length = 1 then acc ++ (splitSep p l).getLastD []
      else (splitSep p l).getLastD [] := by
  intro l
  induction l with
  | nil =>
    intro acc
    simp [splitSep]
  | cons c rest ih =>
    intro acc
    by_cases h : p c = true
    · have hne := splitSep_ne_nil p rest
      have hlen : 1 ≤ (splitSep p rest).length := List.length_pos.mpr hne
      simp only [List.foldl_cons, h, if_true, splitSep, ih []]
      have hlen2 : ([] :: splitSep p rest).length ≠ 1 := by
        simp only [List.length_cons]
        omega
      rw [if_neg hlen2, List.getLastD_cons]
      by_cases h1 : (splitSep p rest).length = 1
      · rw [if_pos h1, List.nil_append]
      · rw [if_neg h1]
    · simp only [List.foldl_cons, h, Bool.false_eq_true, if_false, ih (acc ++ [c]),
        splitSep]
      cases hs : splitSep p rest with
      | nil => exact absurd hs (splitSep_ne_nil p rest)
      | cons w ws =>
        cases ws with
        | nil =>
          rw [if_pos (by simp), if_pos (by simp)]
          simp [List.getLastD_cons, List.append_assoc]
        | cons w2 ws' =>
          rw [if_neg (by simp), if_neg (by simp)]
          show (w :: w2 :: ws').getLastD [] = ((c :: w) :: w2 :: ws').getLastD []
          rw [List.getLastD_eq_getLast?, List.getLastD_eq_getLast?,
            List.getLast?_cons_cons, List.getLast?_cons_cons]

theorem getLastD_splitSep_dropWhile (p : Char → Bool) :
    ∀ l : List Char,
      (splitSep p (l.dropWhile p)).getLastD [] = (splitSep p l).getLastD [] := by
  intro l
  induction l with
  | nil => rfl
  | cons c rest ih =>
    by_cases h : p c = true
    · rw [List.dropWhile_cons]
      simp only [h, if_true, ih]
      simp only [splitSep, h, if_true]
      rw [List.getLastD_cons]
    · rw [List.dropWhile_cons]
      simp [h]

theorem resolveTypeNameOpenapi_eq_shortNameSpec (typeName : String) :
    resolveTypeNameOpenapi typeName = shortNameSpec typeName := by
  unfold resolveTypeNameOpenapi shortNameSpec
  have hne := splitSep_ne_nil (fun c => c == '.')
    (typeName.data.dropWhile (fun c => c == '.'))
  obtain ⟨w, hw⟩ := Option.isSome_iff_exists.mp (List.getLast?_isSome.mpr hne)
  rw [hw]
  have h1 : (splitSep (fun c => c == '.') (typeName.data.dropWhile (fun c => c == '.'))).getLastD [] = w := by
    rw [List.getLastD_eq_getLast?, hw]
    rfl
  have h2 := getLastD_splitSep_dropWhile (fun c => c == '.') typeName.data
  have h3 := foldl_splitSep (fun c => c == '.') typeName.data []
  rw [h1] at h2
  rw [← h2] at h3
  by_cases h4 : (splitSep (fun c => c == '.') typeName.data).length = 1
  · rw [if_pos h4] at h3
    simp only [List.nil_append] at h3
    rw [h3]
  · rw [if_neg h4] at h3
    rw [h3]

/- ===================================================================
   Concrete descriptor inputs for the scenario claims.
   =================================================================== -/

/-- A plain proto3 singular string field: protoc emits label
LABEL_OPTIONAL and leaves proto3_optional unset for such fields. -/
def strFieldP3 (n : String) : FieldDescriptorProto :=
  { name := some n, label := some FieldLabel.optional,
    ftype := some FieldType.stringTy, typeName := none,
    oneofIndex := none, proto3Optional := none }

/-- The message of the required-field scenario: id and name plain
singular strings, tags a repeated string. -/
def userMessageC2 : DescriptorProto :=
  DescriptorProto.mk (some "User")
    [strFieldP3 "id", strFieldP3 "name",
     { name := some "tags", label := some FieldLabel.repeated,
       ftype := some FieldType.stringTy, typeName := none,
       oneofIndex := none, proto3Optional := none }]
    [] []

/-- A message-typed field as the core mapper's own unit test builds it
(test_field_to_rust_type_message in parser/tests.rs). -/
def fieldC4 : FieldDescriptorProto :=
  { name := some "user", label := some FieldLabel.required,
    ftype := some FieldType.message, typeName := some ".example.User",
    oneofIndex := none, proto3Optional := none }

/-- A method with no method-level options (no routing annotation). -/
def listUsersMethod : MethodDescriptorProto :=
  { name := some "ListUsers", inputType := some ".test.ListUsersRequest",
    outputType := some ".test.ListUsersResponse", options := none }

/-- A method that carries method-level options, so the stubbed
annotation decoder is consulted. -/
def methodWithOptionsC3 : MethodDescriptorProto :=
  { name := some "GetUser", inputType := some ".test.GetUserRequest",
    outputType := some ".test.User", options := some MethodOptions.mk }

/-- The empty request used by the plugin-transport claim. -/
def emptyRequestC1 : CodeGeneratorRequest :=
  { fileToGenerate := [], protoFile := [] }

/-- A file whose generation is requested, for the transport claim. -/
def protoFileC1 : FileDescriptorProto :=
  { name := some "a.proto", package := none, messageType := [],
    enumType := [], service := [] }

/-- A generator that fails, standing for a failing per-file generation. -/
def failingGen : FileDescriptorProto → Except String (Option RespFile) :=
  fun _ => Except.error "cannot resolve type"

/-- A oneof member field of message type. -/
def oneofMemberField (n tn : String) : FieldDescriptorProto :=
  { name := some n, label := some FieldLabel.optional,
    ftype := some FieldType.message, typeName := some tn,
    oneofIndex := some 0, proto3Optional := none }

/-- EmailAuth payload message with two string fields. -/
def emailAuthMsg : DescriptorProto :=
  DescriptorProto.mk (some "EmailAuth")
    [strFieldP3 "email", strFieldP3 "password"] [] []

/-- PhoneAuth payload message with two string fields. -/
def phoneAuthMsg : DescriptorProto :=
  DescriptorProto.mk (some "PhoneAuth")
    [strFieldP3 "phone", strFieldP3 "code"] [] []

/-- LoginRequest with the auth_method oneof of the oneof scenario. -/
def loginRequestMsg : DescriptorProto :=
  DescriptorProto.mk (some "LoginRequest")
    [oneofMemberField "email" ".test.EmailAuth",
     oneofMemberField "phone" ".test.PhoneAuth"]
    [] [{ name := some "auth_method" }]

/-- The file of the oneof scenario. -/
def loginFile : FileDescriptorProto :=
  { name := some "login.proto", package := some "test",
    messageType := [loginRequestMsg, emailAuthMsg, phoneAuthMsg],
    enumType := [], service := [] }

/-- LoginRequest variant with an additional scalar-typed oneof member. -/
def loginRequestMsgScalar : DescriptorProto :=
  DescriptorProto.mk (some "LoginRequest")
    [oneofMemberField "email" ".test.EmailAuth",
     oneofMemberField "phone" ".test.PhoneAuth",
     { name := some "token", label := some FieldLabel.optional,
       ftype := some FieldType.stringTy, typeName := none,
       oneofIndex := some 0, proto3Optional := none }]
    [] [{ name := some "auth_method" }]

/-- The oneof-scenario file with the extra scalar variant. -/
def loginFileScalar : FileDescriptorProto :=
  { name := some "login.proto", package := some "test",
    messageType := [loginRequestMsgScalar, emailAuthMsg, phoneAuthMsg],
    enumType := [], service := [] }

/-- A nested message without oneofs. -/
def innerPlainMsg : DescriptorProto :=
  DescriptorProto.mk (some "Inner") [strFieldP3 "data"] [] []

/-- A top-level message without oneofs holding a nested one. -/
def plainMsg : DescriptorProto :=
  DescriptorProto.mk (some "User") [strFieldP3 "name"] [innerPlainMsg] []

/-- A file with messages but no oneof group anywhere. -/
def plainFile : FileDescriptorProto :=
  { name := some "simple.proto", package := some "test",
    messageType := [plainMsg], enumType := [], service := [] }

/-- A oneof member whose type reference matches no top-level message of
its file. -/
def orphanPayloadField : FieldDescriptorProto :=
  { name := some "payload", label := some FieldLabel.optional,
    ftype := some FieldType.message, typeName := some ".other.Payload",
    oneofIndex := some 0, proto3Optional := none }

/-- Holder declares a oneof whose payload type lives in another file. -/
def holderMsg : DescriptorProto :=
  DescriptorProto.mk (some "Holder") [orphanPayloadField]
    [] [{ name := some "choice" }]

/-- The file of the unresolvable-payload scenario. -/
def orphanFile : FileDescriptorProto :=
  { name := some "orphan.proto", package := some "test",
    messageType := [holderMsg], enumType := [], service := [] }

/- ===================================================================
   Claim theorems.
   =================================================================== -/

/-- C1 counterexample: a run whose request decodes but whose processing
fails returns the error to the caller; the run does not produce an
output stream value, so no response (with or without an error message)
is written. -/
theorem C1_counterexample :
    runPlugin (Except.ok []) (fun _ => Except.ok emptyRequestC1)
      (fun _ => Except.error (PluginError.generationError "boom"))
      (fun _ => []) = Except.error (PluginError.generationError "boom") := rfl

/-- C1 (amended): when the decoded request's processing fails, run_plugin
propagates the error to its caller and writes nothing to the output
stream; and the oneof plugin's per-file loop turns the first failing
generation into such a processing error rather than a response error
message. -/
theorem C1_amended_runPlugin :
    (∀ (input : List Nat) (decode : List Nat → Except String CodeGeneratorRequest)
        (process : CodeGeneratorRequest → Except PluginError CodeGeneratorResponse)
        (encode : CodeGeneratorResponse → List Nat)
        (req : CodeGeneratorRequest) (e : PluginError),
      decode input = Except.ok req → process req = Except.error e →
      runPlugin (Except.ok input) decode process encode = Except.error e) ∧
    (∀ (gen : FileDescriptorProto → Except String (Option RespFile))
        (f : FileDescriptorProto) (rest : List FileDescriptorProto)
        (toGenerate : List String) (e : String),
      (f.name.getD "") ∈ toGenerate → gen f = Except.error e →
      oneofProcessFiles gen (f :: rest) toGenerate =
        Except.error (PluginError.generationError e)) := by
  constructor
  · intro input decode process encode req e hdec hproc
    simp [runPlugin, hdec, hproc]
  · intro gen f rest toGenerate e hmem hgen
    simp [oneofProcessFiles, hmem, hgen]

/-- C1 witness: the amended behaviour at concrete inputs. -/
theorem C1_witness :
    runPlugin (Except.ok [10]) (fun _ => Except.ok emptyRequestC1)
      (fun _ => Except.error (PluginError.generationError "gen failed"))
      (fun _ => []) = Except.error (PluginError.generationError "gen failed") ∧
    oneofProcessFiles failingGen [protoFileC1] ["a.proto"] =
      Except.error (PluginError.generationError "cannot resolve type") :=
  ⟨C1_amended_runPlugin.1 [10] _ _ _ emptyRequestC1 _ rfl rfl,
   C1_amended_runPlugin.2 failingGen protoFileC1 [] ["a.proto"]
     "cannot resolve type" (by decide) rfl⟩

/-- C2: what the code really computes on the required-field scenario
message (proto3 descriptors): the required list is [tags] — the repeated
field — while the plain singular fields id and name are left out, because
proto3 singular fields carry LABEL_OPTIONAL; the claimed [id, name] is
not produced.  The tags property is an array of string as claimed. -/
theorem C2_requiredList_eval :
    (messageToSchema userMessageC2).required = some ["tags"] ∧
    (messageToSchema userMessageC2).required ≠ some ["id", "name"] ∧
    lookupAssoc ((messageToSchema userMessageC2).properties.getD []) "tags" =
      some (Schema.mk (some "array") none none none none
        (some (Schema.mk (some "string") none none none none none none none))
        none none) ∧
    lookupAssoc ((messageToSchema userMessageC2).properties.getD []) "id" =
      some (Schema.mk (some "string") none none none none none none none) := by
  refine ⟨rfl, by decide, rfl, rfl⟩

/-- C3 counterexample: for a method that carries options, the route
table path comes from the stubbed annotation decoder (/api/v1/default)
while the API document is keyed by the default snake-case path, so the
two paths differ. -/
theorem C3_counterexample :
    (httpRuleFor methodWithOptionsC3).path ≠ openapiMethodPath methodWithOptionsC3 := by
  decide

/-- C3 (amended): the two emitters agree on the path for every method
without method options; for a method with options the service-surface
emitter uses the stub's placeholder path /api/v1/default while the
API-schema emitter always keys by the default path. -/
theorem C3_amended_paths :
    (∀ m : MethodDescriptorProto, m.options = none →
      (httpRuleFor m).path = openapiMethodPath m) ∧
    (∀ (m : MethodDescriptorProto) (opts : MethodOptions),
      m.options = some opts → (httpRuleFor m).path = "/api/v1/default") := by
  constructor
  · intro m hm
    simp [httpRuleFor, hm, defaultHttpRule, openapiMethodPath]
  · intro m opts hm
    simp [httpRuleFor, hm, parseHttpRule]

/-- C3 witness: the amended statement at concrete methods. -/
theorem C3_witness :
    (httpRuleFor listUsersMethod).path = openapiMethodPath listUsersMethod ∧
    (httpRuleFor methodWithOptionsC3).path = "/api/v1/default" :=
  ⟨C3_amended_paths.1 listUsersMethod rfl,
   C3_amended_paths.2 methodWithOptionsC3 MethodOptions.mk rfl⟩

/-- C4 counterexample: the core code-type projection keeps the full
qualified type reference for a message-typed field (exactly what the
crate's own unit test asserts), not the short last component. -/
theorem C4_counterexample :
    TypeMapper.fieldToRustType fieldC4 = ".example.User" ∧
    TypeMapper.fieldToRustType fieldC4 ≠ "User" := by
  refine ⟨rfl, ?_⟩
  decide

/-- C4 (amended): the emitters' resolve_type_name helper realizes the
spec's short-name contract (last dot component, leading separator
removed) — proved against the spec-modelled contract — while the core
TypeMapper code-type projection uses the raw type reference unchanged as
the base type of message- and enum-typed fields. -/
theorem C4_amended_shortName :
    (∀ typeName : String,
      resolveTypeNameOpenapi typeName = shortNameSpec typeName) ∧
    (∀ (field : FieldDescriptorProto) (tn : String),
      field.getType = FieldType.message ∨ field.getType = FieldType.enumTy →
      field.typeName = some tn → field.getLabel = FieldLabel.required →
      TypeMapper.fieldToRustType field = tn) := by
  constructor
  · exact resolveTypeNameOpenapi_eq_shortNameSpec
  · intro field tn ht htn hl
    rcases ht with h | h <;>
      simp [TypeMapper.fieldToRustType, h, htn, hl]

/-- C4 witness: the amended statement at concrete inputs. -/
theorem C4_witness :
    resolveTypeNameOpenapi ".example.User" = shortNameSpec ".example.User" ∧
    TypeMapper.fieldToRustType fieldC4 = ".example.User" :=
  ⟨C4_amended_shortName.1 ".example.User",
   C4_amended_shortName.2 fieldC4 ".example.User" (Or.inl rfl) rfl rfl⟩

/-- C5: a method without a routing annotation is routed to POST
/api/v1/snake-cased-name with the wildcard body binding; the route table
is a per-method map, so siblings cannot influence one another; and
ListUsers concretely yields POST /api/v1/list_users. -/
theorem C5_default_routing :
    (∀ m : MethodDescriptorProto, m.options = none →
      httpRuleFor m =
        { method := "POST", path := "/api/v1/" ++ toSnakeCaseS (m.name.getD ""),
          body := some "*", responseBody := none }) ∧
    (∀ (n : Option String) (o : Option ServiceOptions)
        (ms1 ms2 : List MethodDescriptorProto) (m : MethodDescriptorProto),
      generateRoutes { name := n, method := ms1 ++ m :: ms2, options := o } =
        generateRoutes { name := n, method := ms1, options := o } ++
          routeEntryFor m ::
            generateRoutes { name := n, method := ms2, options := o }) ∧
    httpRuleFor listUsersMethod =
      { method := "POST", path := "/api/v1/list_users", body := some "*",
        responseBody := none } := by
  refine ⟨?_, ?_, ?_⟩
  · intro m hm
    simp [httpRuleFor, hm, defaultHttpRule]
  · intro n o ms1 ms2 m
    simp [generateRoutes]
  · rfl

/-- C5 witness: the default-routing rule applied to ListUsers. -/
theorem C5_witness :
    httpRuleFor listUsersMethod =
      { method := "POST",
        path := "/api/v1/" ++ toSnakeCaseS (listUsersMethod.name.getD ""),
        body := some "*", responseBody := none } :=
  C5_default_routing.1 listUsersMethod rfl

/-- C6: the oneof scenario produces exactly the two constructors
new_login_request_email and new_login_request_phone, each with two
string parameters and returning LoginRequest; adding a scalar-typed
variant to the oneof adds no constructor. -/
theorem C6_oneof_scenario :
    oneofGenerate loginFile = some
      { name := "login.oneof_helpers.rs",
        items := [
          { functionName := "new_login_request_email",
            messageStruct := "LoginRequest", oneofField := "auth_method",
            variantName := "Email", innerType := "EmailAuth",
            params := [("email", "String"), ("password", "String")] },
          { functionName := "new_login_request_phone",
            messageStruct := "LoginRequest", oneofField := "auth_method",
            variantName := "Phone", innerType := "PhoneAuth",
            params := [("phone", "String"), ("code", "String")] }] } ∧
    (oneofGenerate loginFileScalar).map (fun a => a.items.map (fun c => c.functionName)) =
      some ["new_login_request_email", "new_login_request_phone"] := by
  constructor
  · rfl
  · rfl

/-- C7: finalize is total on every buffer: it is a plain function whose
result is the pretty-printed text when the rendering parses and the
unformatted rendering otherwise — never an error. -/
theorem C7_finalize_total :
    ∀ (α : Type) (parseFile : String → Option α) (unparse : α → String)
      (g : CodeGenerator),
      (∃ t, parseFile g.render = some t ∧
        CodeGenerator.generate parseFile unparse g = unparse t) ∨
      (parseFile g.render = none ∧
        CodeGenerator.generate parseFile unparse g = g.render) := by
  intro α parseFile unparse g
  cases hp : parseFile g.render with
  | some t =>
    exact Or.inl ⟨t, rfl, by simp [CodeGenerator.generate, hp]⟩
  | none =>
    exact Or.inr ⟨rfl, by simp [CodeGenerator.generate, hp]⟩

/-- C8: a file in which no message, top-level or nested, declares a
oneof group yields no artifact at all. -/
theorem C8_no_oneofs_no_artifact :
    ∀ file : FileDescriptorProto,
      (∀ m ∈ allMessages file, m.oneofDecl = []) →
      oneofGenerate file = none := by
  intro file h
  have htop : ∀ m ∈ file.messageType, m.oneofDecl = [] :=
    fun m hm => h m (mem_allMessages_of_mem_top hm)
  have hfalse : oneofHasOneofs file = false := by
    unfold oneofHasOneofs
    rw [List.any_eq_false]
    intro m hm
    rw [htop m hm]
    simp
  simp [oneofGenerate, hfalse]

/-- C8 witness: a concrete file with a nested message and no oneofs
produces no artifact. -/
theorem C8_witness :
    (∀ m ∈ allMessages plainFile, m.oneofDecl = []) ∧
    oneofGenerate plainFile = none :=
  ⟨by decide, C8_no_oneofs_no_artifact plainFile (by decide)⟩

/-- C9 counterexample: the upper-camel-case transform is not idempotent:
a_b maps to AB, which maps to Ab. -/
theorem C9_counterexample :
    toUpperCamelCaseS (toUpperCamelCaseS "a_b") ≠ toUpperCamelCaseS "a_b" := by
  decide

/-- C9 (amended): the snake-case projection is idempotent on every
string; the upper-camel-case projection is not idempotent in general. -/
theorem C9_snake_idempotent (s : String) :
    toSnakeCaseS (toSnakeCaseS s) = toSnakeCaseS s := by
  simp only [toSnakeCaseS]
  exact congrArg String.mk (toSnakeCaseL_idem s.data)

/-- C10: a oneof member of message type whose type reference matches no
top-level message name still yields a constructor: the field extraction
returns no parameters and generation proceeds with an empty parameter
list instead of failing. -/
theorem C10_unresolved_payload :
    (∀ (file : FileDescriptorProto) (tn : String),
      (∀ m ∈ file.messageType, m.name.all (fun n => !strEndsWith tn n) = true) →
      extractMessageFields file tn = []) ∧
    (∀ (file : FileDescriptorProto) (mS mN oN : String)
        (field : FieldDescriptorProto),
      extractMessageFields file (field.typeName.getD "") = [] →
      (generateConstructorForField file mS mN oN field).params = []) ∧
    oneofGenerate orphanFile = some
      { name := "orphan.oneof_helpers.rs",
        items := [{ functionName := "new_holder_payload",
                    messageStruct := "Holder", oneofField := "choice",
                    variantName := "Payload", innerType := "Payload",
                    params := [] }] } := by
  refine ⟨?_, ?_, rfl⟩
  · intro file tn h
    unfold extractMessageFields
    have hnone : file.messageType.find?
        (fun m => match m.name with
          | some msgName => strEndsWith tn msgName
          | none => false) = none := by
      rw [List.find?_eq_none]
      intro m hm
      have hall := h m hm
      cases hname : m.name with
      | none => simp [hname]
      | some n =>
        rw [hname] at hall
        simp only [Option.all] at hall
        simp only [hname]
        simpa using hall
    rw [hnone]
  · intro file mS mN oN field h
    simp [generateConstructorForField, h]

/-- C10 witness: the no-match extraction and the emitted empty-parameter
constructor at the concrete orphan file. -/
theorem C10_witness :
    extractMessageFields orphanFile ".other.Payload" = [] ∧
    (generateConstructorForField orphanFile "Holder" "Holder" "choice"
      orphanPayloadField).params = [] :=
  ⟨C10_unresolved_payload.1 orphanFile ".other.Payload" (by decide),
   C10_unresolved_payload.2.1 orphanFile "Holder" "Holder" "choice"
     orphanPayloadField
     (C10_unresolved_payload.1 orphanFile ".other.Payload" (by decide))⟩

/-- C9 witness: snake-case idempotence at a concrete identifier. -/
theorem C9_witness :
    toSnakeCaseS (toSnakeCaseS "XMLHttpRequest") = toSnakeCaseS "XMLHttpRequest" :=
  C9_snake_idempotent "XMLHttpRequest"

/-- C7 witness: totality of finalize at a concrete buffer and concrete
parse and unparse functions. -/
theorem C7_witness :
    (∃ t, (fun s : String => some s) (CodeGenerator.new).render = some t ∧
      CodeGenerator.generate (fun s : String => some s) (fun s => s)
        CodeGenerator.new = (fun s : String => s) t) ∨
    ((fun s : String => some s) (CodeGenerator.new).render = none ∧
      CodeGenerator.generate (fun s : String => some s) (fun s => s)
        CodeGenerator.new = (CodeGenerator.new).render) :=
  C7_finalize_total String (fun s => some s) (fun s => s) CodeGenerator.new
